import Mathlib

/-!
Shallow embedding of the compositor in src/modules/core/transition_composite.c.

Conventions used throughout:
* C `float`/`double` arithmetic is modelled by exact rational arithmetic (ℚ);
  every claim checked here is exercised only at values where the float
  computation is exact.
* C `int` is modelled by ℤ (no overflow occurs in the ranges the claims use);
  C integer division/remainder truncate toward zero, so they are modelled by
  `Int.tdiv` / `Int.tmod`.
* A C float-to-int conversion truncates toward zero (`cTrunc`).
* Pixel buffers are total maps from byte offsets (ℤ) to byte values (ℕ); the
  compositor's pointer arithmetic becomes explicit offset arithmetic.
-/

namespace Composite

/-- C float-to-int cast: truncation toward zero, on exact rationals. -/
def cTrunc (q : ℚ) : ℤ := if 0 ≤ q then ⌊q⌋ else -⌊-q⌋

/-- The C statement `x -= x % 2` (truncated remainder), forcing `x` to an even
value by moving toward zero. -/
def evenAdjust (x : ℤ) : ℤ := x - Int.tmod x 2

/-- A pixel buffer: byte value at each byte offset. -/
abbrev Buffer := ℤ → ℕ

/-- Write one byte into a buffer. -/
def updByte (buf : Buffer) (off : ℤ) (v : ℕ) : Buffer :=
  fun o => if o = off then v else buf o

/-- The C cast `(uint8_t)` applied to a float blend result: truncate toward
zero and keep the low 8 bits. -/
def byteOf (q : ℚ) : ℕ := (cTrunc q).toNat % 256

/-- `struct geometry_s` from transition_composite.c (same field order). -/
structure Geometry where
  nw : ℤ
  nh : ℤ
  sw : ℤ
  sh : ℤ
  x : ℚ
  y : ℚ
  w : ℚ
  h : ℚ
  mix : ℚ
  halign : ℤ
  valign : ℤ
deriving DecidableEq

/-! ### Model of the C library `strtod` (decimal subset)

`parse_value` calls the C library's `strtod`.  The model below implements
`strtod`'s documented behaviour for decimal numbers (optional whitespace,
optional sign, digits with optional fractional part, optional exponent); on
no conversion it returns 0 with the end pointer equal to the input, exactly
as `strtod` sets `*endptr = nptr`. Hexadecimal/infinity/NaN forms never occur
in geometry strings and are not modelled. -/

/-- The characters `isspace` accepts in the C locale. -/
def isSpaceChar (c : Char) : Bool :=
  c == ' ' || c == '\t' || c == '\n' || c == '\x0b' || c == '\x0c' || c == '\r'

def isDigitChar (c : Char) : Bool :=
  48 ≤ c.toNat && c.toNat ≤ 57

def digitsToNat (ds : List Char) : ℕ :=
  ds.foldl (fun a c => 10 * a + (c.toNat - 48)) 0

/-- Optional leading sign; returns the sign and the rest. -/
def parseSign (s : List Char) : ℤ × List Char :=
  match s with
  | c :: rest =>
    if c = '-' then (-1, rest)
    else if c = '+' then (1, rest)
    else (1, c :: rest)
  | [] => (1, [])

/-- Optional exponent part `[eE][+-]?digits`; consumed only when at least one
exponent digit is present, as in `strtod`. -/
def parseExp (s : List Char) : ℤ × List Char :=
  match s with
  | c :: rest =>
    if c = 'e' ∨ c = 'E' then
      let sr := parseSign rest
      let ds := sr.2.takeWhile isDigitChar
      if ds = [] then (0, s)
      else (sr.1 * (digitsToNat ds : ℤ), sr.2.dropWhile isDigitChar)
    else (0, s)
  | [] => (0, [])

/-- The decimal-number recognizer of `strtod`: `none` when no conversion can
be performed. -/
def parseNumber (s : List Char) : Option (ℚ × List Char) :=
  let s1 := s.dropWhile isSpaceChar
  let sg := parseSign s1
  let ip := sg.2.takeWhile isDigitChar
  let s3 := sg.2.dropWhile isDigitChar
  let fp : List Char × List Char :=
    match s3 with
    | c :: rest =>
      if c = '.' then (rest.takeWhile isDigitChar, rest.dropWhile isDigitChar)
      else ([], c :: rest)
    | [] => ([], [])
  if ip = [] ∧ fp.1 = [] then none
  else
    let er := parseExp fp.2
    let mant : ℚ :=
      (sg.1 : ℚ) * ((digitsToNat ip : ℚ) + (digitsToNat fp.1 : ℚ) / (10 : ℚ) ^ fp.1.length)
    some (mant * (10 : ℚ) ^ er.1, er.2)

/-- `strtod(s, &end)`: the converted value and the final `end` position
(`end = s` and value 0 when no conversion is performed). -/
def strtod (s : List Char) : ℚ × List Char :=
  match parseNumber s with
  | some vr => vr
  | none => (0, s)

/-- The loop `while (*end == delim || *end == '%') end++`. -/
def skipDelims (delim : Char) : List Char → List Char
  | [] => []
  | c :: rest => if c = delim ∨ c = '%' then skipDelims delim rest else c :: rest

/-- `parse_value` (transition_composite.c lines 49-68).  The `char **ptr`
in/out argument is modelled by taking and returning `Option (List Char)`
(`none` = NULL pointer). -/
def parse_value (ptr : Option (List Char)) (norm : ℤ) (delim : Char) (defaults : ℚ) :
    ℚ × Option (List Char) :=
  match ptr with
  | none => (defaults, none)
  | some [] => (defaults, some [])
  | some s =>
    let vr := strtod s
    let v := if vr.2.head? = some '%' then vr.1 / 100 * (norm : ℚ) else vr.1
    (v, some (skipDelims delim vr.2))

/-- `geometry_parse` (lines 75-105).  `g0` is the memory the caller's
`struct geometry_s` holds before the call: fields the C code does not assign
(and, with no defaults and a short string, fields whose defaults are the
uninitialized struct members) keep those values.  The C assignment chains
`geometry->w = geometry->sw = v` store `(int)v` into `sw` and then the int
result back into the float `w`, hence the `cTrunc` round-trips below. -/
def geometry_parse (g0 : Geometry) (defaults : Option Geometry)
    (property : Option (List Char)) (nw nh : ℤ) : Geometry :=
  let g :=
    match defaults with
    | some d =>
      { g0 with
        nw := nw
        nh := nh
        x := d.x
        y := d.y
        sw := cTrunc d.w
        w := (cTrunc d.w : ℚ)
        sh := cTrunc d.h
        h := (cTrunc d.h : ℚ)
        mix := d.mix }
    | none => { g0 with nw := nw, nh := nh, mix := 100 }
  match property with
  | none => g
  | some prop =>
    let pvX := parse_value (some prop) nw ',' g.x
    let pvY := parse_value pvX.2 nh ':' g.y
    let pvW := parse_value pvY.2 nw 'x' g.w
    let pvH := parse_value pvW.2 nh ':' g.h
    let pvM := parse_value pvH.2 (100 : ℤ) ' ' g.mix
    { g with
      x := pvX.1
      y := pvY.1
      sw := cTrunc pvW.1
      w := (cTrunc pvW.1 : ℚ)
      sh := cTrunc pvH.1
      h := (cTrunc pvH.1 : ℚ)
      mix := pvM.1 }

/-- `geometry_calculate` (lines 110-120): interpolated geometry at
`position`; `output`'s other fields (`sw`, `sh`, `halign`, `valign`) keep
whatever the output struct already held. -/
def geometry_calculate (g0 inG outG : Geometry) (position : ℚ) : Geometry :=
  { g0 with
    nw := inG.nw
    nh := inG.nh
    x := inG.x + (outG.x - inG.x) * position + 1/2
    y := inG.y + (outG.y - inG.y) * position + 1/2
    w := inG.w + (outG.w - inG.w) * position
    h := inG.h + (outG.h - inG.h) * position
    mix := inG.mix + (outG.mix - inG.mix) * position }

/-- `alignment_calculate` (lines 143-147). -/
def alignment_calculate (g : Geometry) : Geometry :=
  { g with
    x := g.x + (g.w - (g.sw : ℚ)) * (g.halign : ℚ) / 2 + 1/2
    y := g.y + (g.h - (g.sh : ℚ)) * (g.valign : ℚ) / 2 + 1/2 }

/-! ### Scale negotiation (`get_b_frame_image`, lines 309-408)

The framework plumbing (property lookups, the actual `mlt_frame_get_image`
call) is external; the arithmetic the function performs on the geometry and
the requested size is modelled as a pure function of its inputs: `distort`
is whether the transition has a "distort" property, `real_width/real_height`
are the overlay's native size, `input_ar` / `output_ar` the aspect ratios
read from the frames, and `width`/`height` the destination image size passed
through the in/out pointers. -/

/-- Lines 315-316 and 323-380: the scaled size `(sw, sh)` left in the
geometry after aspect negotiation. -/
def negotiate_scaled (g : Geometry) (distort : Bool) (real_width real_height : ℤ)
    (input_ar output_ar : ℚ) : ℤ × ℤ :=
  if distort then (cTrunc g.w, cTrunc g.h)
  else
    let normalised_width := cTrunc g.w
    let normalised_height := cTrunc g.h
    let output_sar : ℚ := (g.nw : ℚ) / (g.nh : ℚ) / output_ar
    let sw0 : ℤ :=
      if output_sar < 1 then real_width
      else cTrunc (output_sar * (real_height : ℚ) * input_ar)
    let sh0 : ℤ :=
      if output_sar < 1 then cTrunc ((real_width : ℚ) / input_ar / output_sar)
      else real_height
    let sh1 : ℤ := if sw0 > normalised_width then Int.tdiv (sh0 * normalised_width) sw0 else sh0
    let sw1 : ℤ := if sw0 > normalised_width then normalised_width else sw0
    let sw2 : ℤ := if sh1 > normalised_height then Int.tdiv (sw1 * normalised_height) sh1 else sw1
    let sh2 : ℤ := if sh1 > normalised_height then normalised_height else sh1
    if (sw2 : ℚ) ≤ g.w ∧ (sh2 : ℚ) ≤ g.h then (sw2, sh2) else (cTrunc g.w, cTrunc g.h)

/-- The values `get_b_frame_image` computes after negotiation and alignment
(lines 386-394): the adjusted geometry, the consumer-scale position `x,y`
and the final requested size. -/
structure BFrameCalc where
  geo : Geometry
  x : ℤ
  y : ℤ
  width : ℤ
  height : ℤ
deriving DecidableEq

def get_b_frame_image_calc (g : Geometry) (distort : Bool) (real_width real_height : ℤ)
    (input_ar output_ar : ℚ) (width height : ℤ) : BFrameCalc :=
  let nsw := negotiate_scaled g distort real_width real_height input_ar output_ar
  let g2 := alignment_calculate { g with sw := nsw.1, sh := nsw.2 }
  let x := cTrunc (g2.x * (width : ℚ) / (g2.nw : ℚ) + 1/2)
  let y := cTrunc (g2.y * (height : ℚ) / (g2.nh : ℚ) + 1/2)
  { geo := g2
    x := x - Int.tmod x 2
    y := y
    width := Int.tdiv (g2.sw * width) g2.nw
    height := Int.tdiv (g2.sh * height) g2.nh }

/-- Lines 398-407: `some (width, height)` when a buffer of that size is
requested from the external frame supplier, `none` when the function
short-circuits (returns 1) without requesting an image. -/
def get_b_frame_image_requests (g : Geometry) (distort : Bool) (real_width real_height : ℤ)
    (input_ar output_ar : ℚ) (width height : ℤ) : Option (ℤ × ℤ) :=
  let c := get_b_frame_image_calc g distort real_width real_height input_ar output_ar width height
  if c.width ≤ 0 ∨ c.height ≤ 0 then none
  else if (c.x < 0 ∧ -c.x ≥ c.width) ∨ (c.y < 0 ∧ -c.y ≥ c.height) then none
  else some (c.width, c.height)

/-! ### The pixel blend (`composite_yuv`, lines 196-303) -/

/-- Read-only data of one blend invocation: the source buffer, the optional
alpha mask and the precomputed `weight = mix / 100`. -/
structure BlendEnv where
  src : Buffer
  alpha : Option Buffer
  weight : ℚ

/-- The inner-loop body for one pixel: read luma and chroma from the source,
the alpha value (255 when no mask), and blend both bytes into the
destination (lines 293-298). -/
def blendPixel (env : BlendEnv) (sOff dOff aOff : ℤ) (buf : Buffer) : Buffer :=
  let yv := env.src sOff
  let uv := env.src (sOff + 1)
  let a : ℕ :=
    match env.alpha with
    | none => 255
    | some z => z aOff
  let value : ℚ := env.weight * (a : ℚ) / 255
  let buf1 := updByte buf dOff (byteOf ((yv : ℚ) * value + (buf dOff : ℚ) * (1 - value)))
  updByte buf1 (dOff + 1) (byteOf ((uv : ℚ) * value + (buf (dOff + 1) : ℚ) * (1 - value)))

/-- The `j` loop (lines 291-299): `n` pixels left to right from the given
offsets. -/
def blendRow (env : BlendEnv) : ℕ → ℤ → ℤ → ℤ → Buffer → Buffer
  | 0, _, _, _, buf => buf
  | n + 1, sOff, dOff, aOff, buf =>
    blendRow env n (sOff + 2) (dOff + 2) (aOff + 1) (blendPixel env sOff dOff aOff buf)

/-- The `i` loop (lines 283-300): `n` row iterations; each iteration advances
the bases by `step * stride` (the code indexes row `i` with `i` increasing
by `step`). -/
def blendRows (env : BlendEnv) :
    ℕ → ℕ → ℤ → ℤ → ℤ → ℤ → ℤ → ℤ → Buffer → Buffer
  | 0, _, _, _, _, _, _, _, buf => buf
  | n + 1, cols, sOff, dOff, aOff, sStep, dStep, aStep, buf =>
    blendRows env n cols (sOff + sStep) (dOff + dStep) (aOff + aStep) sStep dStep aStep
      (blendRow env cols sOff dOff aOff buf)

/-- Line 206 followed by line 209: destination x position in consumer
scale, forced to the nearest lower-magnitude even value. -/
def composite_resolved_x (g : Geometry) (width_dest : ℤ) : ℤ :=
  evenAdjust (cTrunc (g.x * (width_dest : ℚ) / (g.nw : ℚ) + 1/2))

/-- Line 207: destination y position in consumer scale. -/
def composite_resolved_y (g : Geometry) (height_dest : ℤ) : ℤ :=
  cTrunc (g.y * (height_dest : ℚ) / (g.nh : ℚ) + 1/2)

/-- Everything `composite_yuv` computes before entering its loops
(lines 198-280): `none` when one of the two "no work to do" early returns
fires, otherwise the loop bounds and the initial/stride offsets of the
source, destination and alpha pointers. -/
structure Layout where
  rows : ℕ
  cols : ℕ
  sOff : ℤ
  dOff : ℤ
  aOff : ℤ
  sStep : ℤ
  dStep : ℤ
  aStep : ℤ
deriving DecidableEq

/-- The layout computation of `composite_yuv` once the position `x0`,`y0`
has been resolved to destination pixels (lines 211-280). -/
def layout_core (width_dest height_dest width_src height_src x0 y0 field : ℤ) :
    Option Layout :=
  let stride_src := width_src * 2
  let stride_dest := width_dest * 2
  if width_src ≤ 0 ∨ height_src ≤ 0 then none
  else if (x0 < 0 ∧ -x0 ≥ width_src) ∨ (y0 < 0 ∧ -y0 ≥ height_src) then none
  else
    let xsrc : ℤ := if x0 < 0 then -x0 else 0
    let ws1 : ℤ :=
      if x0 < 0 then width_src + x0
      else if x0 + width_src > width_dest then width_dest - x0
      else width_src
    let x1 : ℤ := if x0 < 0 then 0 else x0
    let ysrc : ℤ := if y0 < 0 then -y0 else 0
    let hs1 : ℤ :=
      if y0 < 0 then height_src + y0
      else if y0 + height_src > height_dest then height_dest - y0
      else height_src
    let sOff0 := xsrc * 2 + ysrc * stride_src
    let dOff0 := (if x1 < 0 then 0 else x1) * 2 + (if y0 < 0 then 0 else y0) * stride_dest
    let aOff0 := xsrc + ysrc * Int.tdiv stride_src 2
    let dOff1 :=
      if field > -1 ∧ Int.tmod y0 2 = field then
        (if y0 = 0 then dOff0 + stride_dest else dOff0 - stride_dest)
      else dOff0
    let sOff1 := if field = 1 then sOff0 + stride_src else sOff0
    let aOff1 := if field = 1 then aOff0 + Int.tdiv stride_src 2 else aOff0
    let hs2 := if field = 1 then hs1 - 1 else hs1
    let step : ℤ := if field > -1 then 2 else 1
    some
      { rows := ((hs2 + step - 1) / step).toNat
        cols := ws1.toNat
        sOff := sOff1
        dOff := dOff1
        aOff := aOff1
        sStep := step * stride_src
        dStep := step * stride_dest
        aStep := step * Int.tdiv stride_src 2 }

def composite_layout (width_dest height_dest width_src height_src : ℤ)
    (g : Geometry) (field : ℤ) : Option Layout :=
  layout_core width_dest height_dest width_src height_src
    (composite_resolved_x g width_dest) (composite_resolved_y g height_dest) field

/-- The clamp `v < 0 ? 0 : v` used for the destination base offsets
(line 244). -/
def clampNonneg (v : ℤ) : ℤ := if v < 0 then 0 else v

/-- The destination base row: the clamped `y` of line 244 shifted by the
field-parity correction of lines 254-260 (a `stride_dest` pointer shift is
one row). -/
def dest_row0 (y0 field : ℤ) : ℤ :=
  if field > -1 ∧ Int.tmod y0 2 = field then
    (if y0 = 0 then clampNonneg y0 + 1 else clampNonneg y0 - 1)
  else clampNonneg y0

/-- `composite_yuv`: the destination buffer after the blend (the C function
mutates `p_dest` in place and always returns 0). -/
def composite_yuv (p_dest : Buffer) (width_dest height_dest : ℤ) (p_src : Buffer)
    (width_src height_src : ℤ) (p_alpha : Option Buffer) (g : Geometry) (field : ℤ) :
    Buffer :=
  match composite_layout width_dest height_dest width_src height_src g field with
  | none => p_dest
  | some L =>
    blendRows ⟨p_src, p_alpha, g.mix / 100⟩ L.rows L.cols L.sOff L.dOff L.aOff
      L.sStep L.dStep L.aStep p_dest

/-- `transition_composite_init` (lines 517-527): the value stored in the
transition's "start" property. -/
def transition_composite_init_start (arg : Option (List Char)) : List Char :=
  match arg with
  | none => "85%,5%:10%x10%".data
  | some s => s

/-- `transition_composite_init`: the value stored in the "end" property. -/
def transition_composite_init_end : List Char := "".data

/-! ### Concrete inputs used by witnesses and counterexamples -/

/-- A zeroed caller struct, standing for definite pre-call memory. -/
def gZero : Geometry := ⟨0, 0, 0, 0, 0, 0, 0, 0, 0, 0, 0⟩

/-- A buffer holding the same byte everywhere. -/
def bufConst (v : ℕ) : Buffer := fun _ => v

def c5start : Geometry := ⟨100, 100, 0, 0, 0, 0, 10, 10, 0, 0, 0⟩

def c5end : Geometry := ⟨100, 100, 0, 0, 100, 100, 10, 10, 100, 0, 0⟩

def c4defaults : Geometry := ⟨0, 0, 0, 0, 5, 6, 7, 8, 9, 0, 0⟩

def c8defaults : Geometry := ⟨0, 0, 0, 0, 1, 2, 21/2, 3, 7, 0, 0⟩

def c9geom : Geometry := ⟨100, 100, 10, 10, 0, 0, 10, 10, 50, 2, 2⟩

def c6geom : Geometry := ⟨720, 576, 0, 0, 0, 0, -1/2, 10, 100, 0, 0⟩

def c6wgeom : Geometry := ⟨720, 576, 0, 0, 0, 0, 10, 10, 100, 0, 0⟩

def c3geom : Geometry := ⟨720, 576, 0, 0, -30, 0, 0, 10, 100, 0, 0⟩

def c3bgeom : Geometry := ⟨24, 24, 0, 0, -30, 0, 20, 10, 100, 0, 0⟩

def c10defaults : Geometry := ⟨0, 0, 0, 0, 1, 2, 10, 20, 30, 0, 0⟩

def c1geom : Geometry := ⟨2, 2, 0, 0, 0, 0, 2, 2, 100, 0, 0⟩

def c2geom : Geometry := ⟨2, 4, 0, 0, 0, -3/2, 2, 3, 100, 0, 0⟩

def c2wgeom : Geometry := ⟨2, 4, 0, 0, 0, 0, 2, 4, 100, 0, 0⟩

/-! ### Basic facts about the C casts

The rational operations from Batteries are marked irreducible, which blocks
the `decide` tactic's evaluation of closed rational facts; they are restored
to their normal reducibility for the proofs below (the kernel never depended
on the attribute in the first place). -/

set_option allowUnsafeReducibility true

attribute [local semireducible] Rat.add Rat.mul Rat.sub Rat.inv

theorem cTrunc_intCast (a : ℤ) : cTrunc (a : ℚ) = a := by
  unfold cTrunc
  split_ifs with h
  · exact Int.floor_intCast a
  · rw [show -((a : ℚ)) = ((-a : ℤ) : ℚ) by push_cast; ring, Int.floor_intCast, neg_neg]

theorem cTrunc_natCast (n : ℕ) : cTrunc (n : ℚ) = n := by
  rw [show ((n : ℚ)) = ((n : ℤ) : ℚ) by push_cast; ring, cTrunc_intCast]

theorem cTrunc_eq_floor {q : ℚ} (h : 0 ≤ q) : cTrunc q = ⌊q⌋ := by
  simp [cTrunc, h]

theorem cTrunc_le {q : ℚ} (h : 0 ≤ q) : (cTrunc q : ℚ) ≤ q := by
  rw [cTrunc_eq_floor h]
  exact Int.floor_le q

theorem byteOf_natCast {n : ℕ} (h : n < 256) : byteOf (n : ℚ) = n := by
  rw [byteOf, cTrunc_natCast]
  simp [Nat.mod_eq_of_lt h]

/-- C5: `geometry_calculate` linearly interpolates `x,y,w,h,mix` between the
two keyframes, copies `nw,nh` from the start keyframe, leaves `sw,sh`
untouched, adds exactly 1/2 to the interpolated `x` and `y` only, and the
section-8 midpoint example yields x = 50.5, y = 50.5, mix = 50 at t = 1/2. -/
theorem c5_interpolation :
    (∀ (g0 inG outG : Geometry) (t : ℚ),
      (geometry_calculate g0 inG outG t).x = inG.x + (outG.x - inG.x) * t + 1/2 ∧
      (geometry_calculate g0 inG outG t).y = inG.y + (outG.y - inG.y) * t + 1/2 ∧
      (geometry_calculate g0 inG outG t).w = inG.w + (outG.w - inG.w) * t ∧
      (geometry_calculate g0 inG outG t).h = inG.h + (outG.h - inG.h) * t ∧
      (geometry_calculate g0 inG outG t).mix = inG.mix + (outG.mix - inG.mix) * t ∧
      (geometry_calculate g0 inG outG t).nw = inG.nw ∧
      (geometry_calculate g0 inG outG t).nh = inG.nh ∧
      (geometry_calculate g0 inG outG t).sw = g0.sw ∧
      (geometry_calculate g0 inG outG t).sh = g0.sh) ∧
    ((geometry_calculate gZero c5start c5end (1/2)).x = 101/2 ∧
     (geometry_calculate gZero c5start c5end (1/2)).y = 101/2 ∧
     (geometry_calculate gZero c5start c5end (1/2)).mix = 50) := by
  refine ⟨fun g0 inG outG t => ⟨rfl, rfl, rfl, rfl, rfl, rfl, rfl, rfl, rfl⟩, ?_, ?_, ?_⟩ <;>
    decide

/-- C7: parsing "50%,50%:100%x100%:100" with normalisation 720 x 576 yields
x = 360, y = 288, w = 720, h = 576, mix = 100 (a trailing percent scales the
token by the matching normalisation axis over 100). -/
theorem c7_percentage_parse :
    (geometry_parse gZero none (some "50%,50%:100%x100%:100".data) 720 576).x = 360 ∧
    (geometry_parse gZero none (some "50%,50%:100%x100%:100".data) 720 576).y = 288 ∧
    (geometry_parse gZero none (some "50%,50%:100%x100%:100".data) 720 576).w = 720 ∧
    (geometry_parse gZero none (some "50%,50%:100%x100%:100".data) 720 576).h = 576 ∧
    (geometry_parse gZero none (some "50%,50%:100%x100%:100".data) 720 576).mix = 100 := by
  refine ⟨?_, ?_, ?_, ?_, ?_⟩ <;> decide

/-- C9 counterexample: on a geometry with `w = sw` and `h = sh` the
alignment adjustment is not a no-op — it still adds the 1/2 rounding bias
to `x` (and `y`), so `x` does not keep its value. -/
theorem c9_counterexample : (alignment_calculate c9geom).x ≠ c9geom.x := by
  decide

/-- C9 (amended): when `w = sw` and `h = sh` the alignment offset
contribution is zero for every `halign`/`valign`, and the adjustment reduces
to adding exactly the 1/2 rounding bias to `x` and to `y`. -/
theorem c9_alignment_amended (g : Geometry) (hw : g.w = (g.sw : ℚ)) (hh : g.h = (g.sh : ℚ)) :
    alignment_calculate g = { g with x := g.x + 1/2, y := g.y + 1/2 } := by
  simp [alignment_calculate, hw, hh]

/-- C9 witness: the amended statement at a concrete aligned geometry. -/
theorem c9_alignment_amended_witness :
    alignment_calculate c9geom = { c9geom with x := c9geom.x + 1/2, y := c9geom.y + 1/2 } :=
  c9_alignment_amended c9geom (by decide) (by decide)

/-- C4 counterexample: parsing the malformed token "abc" against a defaults
geometry with x = 5 does not fall back to the default — `strtod` returns 0
on no conversion and that 0 is stored, so the result moves away from its
default. -/
theorem c4_counterexample :
    (geometry_parse gZero (some c4defaults) (some "abc".data) 100 100).x ≠ c4defaults.x := by
  decide

/-- C4 (amended): geometry parsing is total and never fails; an absent token
(NULL pointer or exhausted string) falls back to the default value, but an
unparseable non-empty token stores `strtod`'s no-conversion result 0 instead
of the default. -/
theorem c4_parse_amended :
    (∀ (norm : ℤ) (delim : Char) (defaults : ℚ),
      parse_value none norm delim defaults = (defaults, none)) ∧
    (∀ (norm : ℤ) (delim : Char) (defaults : ℚ),
      parse_value (some []) norm delim defaults = (defaults, some [])) ∧
    (∀ (s : List Char) (norm : ℤ) (delim : Char) (defaults : ℚ),
      s ≠ [] → parseNumber s = none → (parse_value (some s) norm delim defaults).1 = 0) := by
  refine ⟨fun _ _ _ => rfl, fun _ _ _ => rfl, ?_⟩
  intro s norm delim defaults hs hpn
  match s, hs with
  | ch :: rest, _ =>
    show (parse_value (some (ch :: rest)) norm delim defaults).1 = 0
    simp only [parse_value, strtod, hpn]
    split
    · simp
    · rfl

/-- C4 witness: the amended statement applied to the malformed token "abc". -/
theorem c4_parse_amended_witness :
    (parse_value (some "abc".data) 100 ',' 5).1 = 0 :=
  c4_parse_amended.2.2 "abc".data 100 ',' 5 (by decide) (by decide)

/-- C8 counterexample: with a defaults geometry whose w = 10.5, parsing a
string that omits the W field yields w = 10, not the defaults geometry's
value — inheritance truncates `w`/`h` through the int-typed `sw`/`sh`. -/
theorem c8_counterexample :
    (geometry_parse gZero (some c8defaults) (some "5".data) 100 100).w ≠ c8defaults.w := by
  decide

/-- C8 (amended): missing trailing fields inherit from the defaults geometry
except that `w` and `h` are truncated toward zero to integers through the
int-typed `sw`/`sh` assignment chain; with no defaults geometry only MIX
defaults (to 100) while X, Y, W, H retain the caller's pre-existing struct
contents. -/
theorem c8_missing_fields_amended :
    (∀ (g0 d : Geometry) (nw nh : ℤ),
      geometry_parse g0 (some d) none nw nh =
        { g0 with nw := nw, nh := nh, x := d.x, y := d.y, sw := cTrunc d.w,
                  w := (cTrunc d.w : ℚ), sh := cTrunc d.h, h := (cTrunc d.h : ℚ),
                  mix := d.mix }) ∧
    (∀ (g0 d : Geometry) (nw nh : ℤ),
      geometry_parse g0 (some d) (some []) nw nh =
        { g0 with nw := nw, nh := nh, x := d.x, y := d.y, sw := cTrunc d.w,
                  w := (cTrunc d.w : ℚ), sh := cTrunc d.h, h := (cTrunc d.h : ℚ),
                  mix := d.mix }) ∧
    (∀ (g0 d : Geometry) (nw nh : ℤ),
      geometry_parse g0 (some d) (some "5".data) nw nh =
        { g0 with nw := nw, nh := nh, x := 5, y := d.y, sw := cTrunc d.w,
                  w := (cTrunc d.w : ℚ), sh := cTrunc d.h, h := (cTrunc d.h : ℚ),
                  mix := d.mix }) ∧
    (∀ (g0 : Geometry) (nw nh : ℤ),
      geometry_parse g0 none none nw nh = { g0 with nw := nw, nh := nh, mix := 100 }) := by
  have h5 : strtod "5".data = (5, []) := by decide
  refine ⟨fun g0 d nw nh => rfl, ?_, ?_, fun g0 nw nh => rfl⟩
  · intro g0 d nw nh
    simp [geometry_parse, parse_value, cTrunc_intCast]
  · intro g0 d nw nh
    simp [geometry_parse, parse_value, h5, skipDelims, cTrunc_intCast]

/-- C10: the constructor stores "85%,5%:10%x10%" as the start geometry when
its argument is NULL and the argument verbatim otherwise, and always stores
the empty string as the end geometry; parsing that empty end string against
any start geometry with integer-valued w,h (every parsed geometry is such)
inherits every geometry field from the start, and the default start string
parses (at 720 x 576) to the static 10 percent box at (85 percent,
5 percent) with full mix. -/
theorem c10_constructor :
    transition_composite_init_start none = "85%,5%:10%x10%".data ∧
    (∀ s, transition_composite_init_start (some s) = s) ∧
    transition_composite_init_end = [] ∧
    (∀ (g0 d : Geometry) (nw nh : ℤ), (∃ a : ℤ, d.w = (a : ℚ)) → (∃ b : ℤ, d.h = (b : ℚ)) →
      geometry_parse g0 (some d) (some transition_composite_init_end) nw nh =
        { g0 with nw := nw, nh := nh, x := d.x, y := d.y, sw := cTrunc d.w,
                  w := d.w, sh := cTrunc d.h, h := d.h, mix := d.mix }) ∧
    (∀ (g0 : Geometry) (d : Option Geometry) (p : List Char) (nw nh : ℤ),
      ∃ a b : ℤ, (geometry_parse g0 d (some p) nw nh).w = (a : ℚ) ∧
        (geometry_parse g0 d (some p) nw nh).h = (b : ℚ)) ∧
    geometry_parse gZero none (some (transition_composite_init_start none)) 720 576 =
      ⟨720, 576, 72, 57, 612, 144/5, 72, 57, 100, 0, 0⟩ := by
  refine ⟨rfl, fun s => rfl, rfl, ?_, ?_, by decide⟩
  · intro g0 d nw nh ha hb
    obtain ⟨a, ha⟩ := ha
    obtain ⟨b, hb⟩ := hb
    show geometry_parse g0 (some d) (some []) nw nh = _
    simp [geometry_parse, parse_value, cTrunc_intCast, ha, hb]
  · intro g0 d p nw nh
    cases d <;> exact ⟨_, _, rfl, rfl⟩

/-- C10 witness: the inheritance clause applied to a concrete integral
start geometry. -/
theorem c10_constructor_witness :
    geometry_parse gZero (some c10defaults) (some transition_composite_init_end) 100 100 =
      { gZero with nw := 100, nh := 100, x := c10defaults.x, y := c10defaults.y,
                   sw := cTrunc c10defaults.w, w := c10defaults.w,
                   sh := cTrunc c10defaults.h, h := c10defaults.h,
                   mix := c10defaults.mix } :=
  c10_constructor.2.2.2.1 gZero c10defaults 100 100 ⟨10, by decide⟩ ⟨20, by decide⟩

/-- C6 counterexample: a geometry with negative requested width w = -1/2
ends scale negotiation with sw = 0 > w, violating the invariant sw ≤ w. -/
theorem c6_counterexample :
    ¬ (((negotiate_scaled c6geom false 100 50 1 1).1 : ℚ) ≤ c6geom.w) := by
  decide

/-- C6 (amended): for geometries with nonnegative requested box `w`, `h`,
scale negotiation always ends with `sw ≤ w` and `sh ≤ h`: the candidate is
adopted only when it fits the requested box, and otherwise `sw`,`sh` keep
the truncation of `w`,`h`. -/
theorem c6_scale_invariant_amended (g : Geometry) (distort : Bool) (rwd rhd : ℤ)
    (ia oa : ℚ) (hw : 0 ≤ g.w) (hh : 0 ≤ g.h) :
    ((negotiate_scaled g distort rwd rhd ia oa).1 : ℚ) ≤ g.w ∧
    ((negotiate_scaled g distort rwd rhd ia oa).2 : ℚ) ≤ g.h := by
  simp only [negotiate_scaled]
  split_ifs <;> first | assumption | exact ⟨cTrunc_le hw, cTrunc_le hh⟩

/-- C6 witness: the amended invariant at a concrete configuration. -/
theorem c6_scale_invariant_amended_witness :
    ((negotiate_scaled c6wgeom true 100 50 1 1).1 : ℚ) ≤ c6wgeom.w ∧
    ((negotiate_scaled c6wgeom true 100 50 1 1).2 : ℚ) ≤ c6wgeom.h :=
  c6_scale_invariant_amended c6wgeom true 100 50 1 1 (by decide) (by decide)

/-- C3: when the final scaled dimension is nonpositive on either axis, or
the resolved pixel position places the overlay entirely outside the
destination on either axis, `get_b_frame_image` returns without requesting a
buffer from the frame supplier, and `composite_yuv` under the matching
degenerate conditions leaves every destination byte unchanged. -/
theorem c3_degenerate_skip :
    (∀ (g : Geometry) (distort : Bool) (rwd rhd : ℤ) (ia oa : ℚ) (width height : ℤ),
      ((get_b_frame_image_calc g distort rwd rhd ia oa width height).width ≤ 0 ∨
       (get_b_frame_image_calc g distort rwd rhd ia oa width height).height ≤ 0 ∨
       ((get_b_frame_image_calc g distort rwd rhd ia oa width height).x < 0 ∧
        -(get_b_frame_image_calc g distort rwd rhd ia oa width height).x ≥
          (get_b_frame_image_calc g distort rwd rhd ia oa width height).width) ∨
       ((get_b_frame_image_calc g distort rwd rhd ia oa width height).y < 0 ∧
        -(get_b_frame_image_calc g distort rwd rhd ia oa width height).y ≥
          (get_b_frame_image_calc g distort rwd rhd ia oa width height).height)) →
      get_b_frame_image_requests g distort rwd rhd ia oa width height = none) ∧
    (∀ (dest src : Buffer) (wd hd ws hs : ℤ) (alpha : Option Buffer) (g : Geometry) (f : ℤ),
      (ws ≤ 0 ∨ hs ≤ 0 ∨
       (composite_resolved_x g wd < 0 ∧ -composite_resolved_x g wd ≥ ws) ∨
       (composite_resolved_y g hd < 0 ∧ -composite_resolved_y g hd ≥ hs)) →
      ∀ o : ℤ, composite_yuv dest wd hd src ws hs alpha g f o = dest o) := by
  constructor
  · intro g distort rwd rhd ia oa width height h
    simp only [get_b_frame_image_requests]
    split_ifs with h1 h2
    · rfl
    · rfl
    · exfalso
      rcases h with h | h | h | h <;> tauto
  · intro dest src wd hd ws hs alpha g f h o
    have hnone : composite_layout wd hd ws hs g f = none := by
      by_cases h1 : ws ≤ 0 ∨ hs ≤ 0
      · simp [composite_layout, layout_core, h1]
      · have h2 : (composite_resolved_x g wd < 0 ∧ -composite_resolved_x g wd ≥ ws) ∨
            (composite_resolved_y g hd < 0 ∧ -composite_resolved_y g hd ≥ hs) := by tauto
        simp [composite_layout, layout_core, h1, h2]
    unfold composite_yuv
    rw [hnone]

/-- C3 witness: a geometry with final width 0 makes no buffer request, and
an overlay of width 20 resolved entirely left of the frame writes no
destination byte. -/
theorem c3_degenerate_skip_witness :
    get_b_frame_image_requests c3geom true 100 50 1 1 720 576 = none ∧
    composite_yuv (bufConst 7) 24 24 (bufConst 9) 20 10 none c3bgeom 0 0 = bufConst 7 0 :=
  ⟨c3_degenerate_skip.1 c3geom true 100 50 1 1 720 576 (by decide),
   c3_degenerate_skip.2 (bufConst 7) (bufConst 9) 24 24 20 10 none c3bgeom 0 (by decide) 0⟩

/-! ### Behaviour of the blend loops -/

theorem updByte_ne {buf : Buffer} {off : ℤ} {v : ℕ} {o : ℤ} (h : o ≠ off) :
    updByte buf off v o = buf o := if_neg h

theorem updByte_self (buf : Buffer) (off : ℤ) (v : ℕ) : updByte buf off v off = v :=
  if_pos rfl

/-- One pixel blend touches only the two destination bytes at its offset. -/
theorem blendPixel_ne (env : BlendEnv) (sOff dOff aOff : ℤ) (buf : Buffer) (o : ℤ)
    (h0 : o ≠ dOff) (h1 : o ≠ dOff + 1) :
    blendPixel env sOff dOff aOff buf o = buf o := by
  simp only [blendPixel]
  rw [updByte_ne h1, updByte_ne h0]

/-- With full weight and a fully opaque alpha mask, one pixel blend copies
the two source bytes verbatim. -/
theorem blendPixel_copy (env : BlendEnv) (A : Buffer)
    (hw : env.weight = 1) (hA : env.alpha = some A) (h255 : ∀ o, A o = 255)
    (hsrc : ∀ o, env.src o < 256) (sOff dOff aOff : ℤ) (buf : Buffer) :
    blendPixel env sOff dOff aOff buf dOff = env.src sOff ∧
    blendPixel env sOff dOff aOff buf (dOff + 1) = env.src (sOff + 1) := by
  have hval : env.weight *
      ((match env.alpha with | none => 255 | some z => z aOff : ℕ) : ℚ) / 255 = 1 := by
    rw [hA, hw]
    show (1 : ℚ) * ((A aOff : ℕ) : ℚ) / 255 = 1
    rw [h255 aOff]
    norm_num
  constructor
  · simp only [blendPixel, hval]
    rw [updByte_ne (show dOff ≠ dOff + 1 by omega), updByte_self]
    rw [show (env.src sOff : ℚ) * 1 + (buf dOff : ℚ) * (1 - 1) = ((env.src sOff : ℕ) : ℚ)
      by ring]
    exact byteOf_natCast (hsrc sOff)
  · simp only [blendPixel, hval]
    rw [updByte_self]
    rw [show (env.src (sOff + 1) : ℚ) * 1 + (buf (dOff + 1) : ℚ) * (1 - 1) =
      ((env.src (sOff + 1) : ℕ) : ℚ) by ring]
    exact byteOf_natCast (hsrc (sOff + 1))

/-- The row loop leaves bytes outside its span untouched. -/
theorem blendRow_outside (env : BlendEnv) :
    ∀ (n : ℕ) (sOff dOff aOff : ℤ) (buf : Buffer) (o : ℤ),
      o < dOff ∨ dOff + 2 * (n : ℤ) ≤ o →
      blendRow env n sOff dOff aOff buf o = buf o := by
  intro n
  induction n with
  | zero => intro sOff dOff aOff buf o _; rfl
  | succ m ih =>
    intro sOff dOff aOff buf o h
    show blendRow env m (sOff + 2) (dOff + 2) (aOff + 1)
      (blendPixel env sOff dOff aOff buf) o = buf o
    rw [ih (sOff + 2) (dOff + 2) (aOff + 1) _ o (by push_cast at h ⊢; omega)]
    exact blendPixel_ne env sOff dOff aOff buf o (by push_cast at h; omega)
      (by push_cast at h; omega)

/-- With full weight and an opaque mask, after the row loop every byte of
the row's span holds the corresponding source byte. -/
theorem blendRow_copy (env : BlendEnv) (A : Buffer)
    (hw : env.weight = 1) (hA : env.alpha = some A) (h255 : ∀ o, A o = 255)
    (hsrc : ∀ o, env.src o < 256) :
    ∀ (n : ℕ) (sOff dOff aOff : ℤ) (buf : Buffer) (j c : ℕ),
      j < n → c = 0 ∨ c = 1 →
      blendRow env n sOff dOff aOff buf (dOff + 2 * (j : ℤ) + (c : ℤ)) =
        env.src (sOff + 2 * (j : ℤ) + (c : ℤ)) := by
  intro n
  induction n with
  | zero => intro sOff dOff aOff buf j c hj _; omega
  | succ m ih =>
    intro sOff dOff aOff buf j c hj hc
    show blendRow env m (sOff + 2) (dOff + 2) (aOff + 1)
      (blendPixel env sOff dOff aOff buf) _ = _
    rcases j with _ | j
    · rw [blendRow_outside env m (sOff + 2) (dOff + 2) (aOff + 1) _ _
        (by rcases hc with rfl | rfl <;> push_cast <;> omega)]
      rcases hc with rfl | rfl
      · simpa using (blendPixel_copy env A hw hA h255 hsrc sOff dOff aOff buf).1
      · simpa [add_assoc] using (blendPixel_copy env A hw hA h255 hsrc sOff dOff aOff buf).2
    · have h2 := ih (sOff + 2) (dOff + 2) (aOff + 1) (blendPixel env sOff dOff aOff buf)
        j c (by omega) hc
      have e1 : dOff + 2 * ((j + 1 : ℕ) : ℤ) + (c : ℤ) = (dOff + 2) + 2 * (j : ℤ) + (c : ℤ) := by
        push_cast
        ring
      have e2 : sOff + 2 * ((j + 1 : ℕ) : ℤ) + (c : ℤ) = (sOff + 2) + 2 * (j : ℤ) + (c : ℤ) := by
        push_cast
        ring
      rw [e1, e2]
      exact h2

/-- The whole loop nest leaves untouched every byte outside the union of the
row spans. -/
theorem blendRows_outside (env : BlendEnv) :
    ∀ (n cols : ℕ) (sOff dOff aOff sStep dStep aStep : ℤ) (buf : Buffer) (o : ℤ),
      (∀ k : ℕ, k < n → o < dOff + (k : ℤ) * dStep ∨ dOff + (k : ℤ) * dStep + 2 * (cols : ℤ) ≤ o) →
      blendRows env n cols sOff dOff aOff sStep dStep aStep buf o = buf o := by
  intro n
  induction n with
  | zero => intro cols sOff dOff aOff sStep dStep aStep buf o _; rfl
  | succ m ih =>
    intro cols sOff dOff aOff sStep dStep aStep buf o h
    show blendRows env m cols (sOff + sStep) (dOff + dStep) (aOff + aStep) sStep dStep aStep
      (blendRow env cols sOff dOff aOff buf) o = buf o
    rw [ih cols (sOff + sStep) (dOff + dStep) (aOff + aStep) sStep dStep aStep _ o ?_]
    · have h0 := h 0 (by omega)
      simp only [Nat.cast_zero, zero_mul, add_zero] at h0
      exact blendRow_outside env cols sOff dOff aOff buf o h0
    · intro k hk
      have hk1 := h (k + 1) (by omega)
      have e : ((k + 1 : ℕ) : ℤ) * dStep = (k : ℤ) * dStep + dStep := by
        push_cast
        ring
      rw [e] at hk1
      rcases hk1 with h1 | h1
      · left
        linarith
      · right
        linarith

/-- With full weight and an opaque mask, and rows that cannot overlap
(`2*cols ≤ dStep`), the loop nest copies every byte of every row span from
the source. -/
theorem blendRows_copy (env : BlendEnv) (A : Buffer)
    (hw : env.weight = 1) (hA : env.alpha = some A) (h255 : ∀ o, A o = 255)
    (hsrc : ∀ o, env.src o < 256) :
    ∀ (n cols : ℕ) (sOff dOff aOff sStep dStep aStep : ℤ) (buf : Buffer),
      2 * (cols : ℤ) ≤ dStep →
      ∀ k j c : ℕ, k < n → j < cols → c = 0 ∨ c = 1 →
      blendRows env n cols sOff dOff aOff sStep dStep aStep buf
          (dOff + (k : ℤ) * dStep + 2 * (j : ℤ) + (c : ℤ)) =
        env.src (sOff + (k : ℤ) * sStep + 2 * (j : ℤ) + (c : ℤ)) := by
  intro n
  induction n with
  | zero => intro cols sOff dOff aOff sStep dStep aStep buf hsep k j c hk _ _; omega
  | succ m ih =>
    intro cols sOff dOff aOff sStep dStep aStep buf hsep k j c hk hj hc
    show blendRows env m cols (sOff + sStep) (dOff + dStep) (aOff + aStep) sStep dStep aStep
      (blendRow env cols sOff dOff aOff buf) _ = _
    have hjc : 2 * (j : ℤ) + (c : ℤ) < 2 * (cols : ℤ) := by
      rcases hc with rfl | rfl <;> push_cast <;> omega
    rcases k with _ | k
    · have hout := blendRows_outside env m cols (sOff + sStep) (dOff + dStep) (aOff + aStep)
        sStep dStep aStep (blendRow env cols sOff dOff aOff buf)
        (dOff + ((0 : ℕ) : ℤ) * dStep + 2 * (j : ℤ) + (c : ℤ)) ?_
      · rw [hout]
        simp only [Nat.cast_zero, zero_mul, add_zero]
        exact blendRow_copy env A hw hA h255 hsrc cols sOff dOff aOff buf j c hj hc
      · intro u hu
        left
        have hu0 : (0 : ℤ) ≤ (u : ℤ) * dStep :=
          mul_nonneg (by positivity) (by linarith [Nat.cast_nonneg (α := ℤ) cols])
        simp only [Nat.cast_zero, zero_mul, add_zero]
        linarith
    · have h2 := ih cols (sOff + sStep) (dOff + dStep) (aOff + aStep) sStep dStep aStep
        (blendRow env cols sOff dOff aOff buf) hsep k j c (by omega) hj hc
      have e1 : dOff + ((k + 1 : ℕ) : ℤ) * dStep + 2 * (j : ℤ) + (c : ℤ) =
          (dOff + dStep) + (k : ℤ) * dStep + 2 * (j : ℤ) + (c : ℤ) := by
        push_cast
        ring
      have e2 : sOff + ((k + 1 : ℕ) : ℤ) * sStep + 2 * (j : ℤ) + (c : ℤ) =
          (sOff + sStep) + (k : ℤ) * sStep + 2 * (j : ℤ) + (c : ℤ) := by
        push_cast
        ring
      rw [e1, e2]
      exact h2

/-! ### Structure of the precomputed layout -/

theorem clampNonneg_nonneg (v : ℤ) : 0 ≤ clampNonneg v := by
  unfold clampNonneg
  split_ifs <;> omega

theorem dest_row0_nonneg {y0 f : ℤ} (hy : 0 ≤ y0) (_hf : f = 0 ∨ f = 1) :
    0 ≤ dest_row0 y0 f := by
  unfold dest_row0 clampNonneg
  split_ifs <;> omega

theorem dest_row0_parity {y0 f : ℤ} (hy : 0 ≤ y0) (hf : f = 0 ∨ f = 1) :
    dest_row0 y0 f % 2 = 1 - f := by
  have hym : Int.tmod y0 2 = y0 % 2 := Int.tmod_eq_emod hy (by norm_num)
  unfold dest_row0 clampNonneg
  split_ifs <;> omega

set_option maxHeartbeats 2000000 in
/-- If the layout is produced (no early return) and the source fits the
destination stride, one row's byte span cannot reach into the next row. -/
theorem layout_core_sep (wd hd ws hs x0 y0 field : ℤ) (L : Layout)
    (hws : ws ≤ wd) (hL : layout_core wd hd ws hs x0 y0 field = some L) :
    2 * (L.cols : ℤ) ≤ L.dStep := by
  simp only [layout_core] at hL
  split_ifs at hL <;>
    first
    | exact Option.noConfusion hL
    | (injection hL with hL; subst hL; dsimp only; omega)

set_option maxHeartbeats 4000000 in
/-- On a 4-row interlaced destination with the overlay not cropped at the
top, the produced layout writes rows `dest_row0 + 2k ∈ [0,3]` of the parity
opposite to `field`, with each row span inside the destination row. -/
theorem layout_core_parity (wd ws hs x0 y0 f : ℤ) (L : Layout)
    (hf : f = 0 ∨ f = 1) (hws : ws ≤ wd) (hy : 0 ≤ y0)
    (hL : layout_core wd 4 ws hs x0 y0 f = some L) :
    0 < wd ∧
    L.dStep = 2 * (2 * wd) ∧
    L.dOff = 2 * clampNonneg x0 + dest_row0 y0 f * (2 * wd) ∧
    (0 < (L.cols : ℤ) → clampNonneg x0 + (L.cols : ℤ) ≤ wd) ∧
    (∀ k : ℕ, k < L.rows → dest_row0 y0 f + 2 * (k : ℤ) ≤ 3) := by
  have hym : Int.tmod y0 2 = y0 % 2 := Int.tmod_eq_emod hy (by norm_num)
  rcases hf with rfl | rfl <;>
  · simp only [layout_core] at hL
    split_ifs at hL <;>
      first
      | exact Option.noConfusion hL
      | (injection hL with hL; subst hL;
         refine ⟨by omega, by dsimp only; omega, ?_, ?_, ?_⟩
         · dsimp only
           unfold dest_row0 clampNonneg
           split_ifs <;> first | ring | (exfalso; omega) | omega
         · dsimp only
           unfold clampNonneg
           split_ifs <;> omega
         · intro k hk
           dsimp only at hk ⊢
           unfold dest_row0 clampNonneg
           split_ifs <;> omega)

/-- C1: in every blend invocation with mix = 100 and an alpha mask that is
255 everywhere (on byte-valued buffers, with the source row no wider than
the destination), every destination byte inside the overlay's cropped
rectangle — both the luma and the chroma byte of every written pixel —
exactly equals the corresponding source byte after blending, as dictated by
output = source*value + destination*(1-value) at value = 1. -/
theorem c1_full_opacity (dest src : Buffer) (wd hd ws hs : ℤ) (A : Buffer) (g : Geometry)
    (field : ℤ) (hmix : g.mix = 100) (hA : ∀ o, A o = 255) (hsrc : ∀ o, src o < 256)
    (hws : ws ≤ wd) :
    ∀ L, composite_layout wd hd ws hs g field = some L →
      ∀ k j c : ℕ, k < L.rows → j < L.cols → c = 0 ∨ c = 1 →
        composite_yuv dest wd hd src ws hs (some A) g field
            (L.dOff + (k : ℤ) * L.dStep + 2 * (j : ℤ) + (c : ℤ)) =
          src (L.sOff + (k : ℤ) * L.sStep + 2 * (j : ℤ) + (c : ℤ)) := by
  intro L hL k j c hk hj hc
  have hsep := layout_core_sep wd hd ws hs (composite_resolved_x g wd)
    (composite_resolved_y g hd) field L hws hL
  unfold composite_yuv
  rw [hL]
  exact blendRows_copy ⟨src, some A, g.mix / 100⟩ A
    (by show g.mix / 100 = 1; rw [hmix]; norm_num) rfl hA hsrc
    L.rows L.cols L.sOff L.dOff L.aOff L.sStep L.dStep L.aStep dest hsep k j c hk hj hc

/-- C1 witness: a 2x2 full-frame blend at mix 100 with an opaque mask copies
the source byte at offset 0. -/
theorem c1_full_opacity_witness :
    composite_yuv (bufConst 7) 2 2 (bufConst 9) 2 2 (some (bufConst 255)) c1geom (-1) 0 =
      bufConst 9 0 := by
  have h := c1_full_opacity (bufConst 7) (bufConst 9) 2 2 2 2 (bufConst 255) c1geom (-1)
    (by decide) (fun o => rfl) (fun o => by show (9 : ℕ) < 256; decide) (by decide)
    ⟨2, 2, 0, 0, 0, 4, 4, 2⟩ (by decide) 0 0 0 (by decide) (by decide) (Or.inl rfl)
  simpa using h

/-- C2 counterexample: on a 4-row destination, an interlaced field-0 pass
for an overlay whose resolved position is one row above the frame writes
destination row 0 (an even row), so the pass does not modify only rows
{1,3}. -/
theorem c2_counterexample :
    composite_yuv (bufConst 0) 2 4 (bufConst 255) 2 3 none c2geom 0 0 ≠ bufConst 0 0 := by
  decide

/-- C2 (amended): on a 4-row destination whose width covers the source and
whose resolved vertical position is not above the frame, the interlaced pass
with field = 0 modifies only rows {1,3} and the pass with field = 1 modifies
only rows {0,2}: every byte outside the rows of parity `1 - field` (and
every byte outside the destination) is unchanged. -/
theorem c2_field_parity_amended (dest src : Buffer) (wd ws hs : ℤ) (alpha : Option Buffer)
    (g : Geometry) (f : ℤ) (hf : f = 0 ∨ f = 1) (hws : ws ≤ wd)
    (hy : 0 ≤ composite_resolved_y g 4) :
    ∀ o : ℤ, (o < 0 ∨ 4 * (2 * wd) ≤ o ∨ (o / (2 * wd)) % 2 = f) →
      composite_yuv dest wd 4 src ws hs alpha g f o = dest o := by
  intro o ho
  unfold composite_yuv
  cases hL : composite_layout wd 4 ws hs g f with
  | none => rfl
  | some L =>
    obtain ⟨hwd, hstep, hoff, hcols, hrows⟩ := layout_core_parity wd ws hs
      (composite_resolved_x g wd) (composite_resolved_y g 4) f L hf hws hy hL
    apply blendRows_outside
    intro k hk
    by_contra hcon
    push_neg at hcon
    obtain ⟨hc1, hc2⟩ := hcon
    have hx1nn : 0 ≤ clampNonneg (composite_resolved_x g wd) := clampNonneg_nonneg _
    have hr0nn : 0 ≤ dest_row0 (composite_resolved_y g 4) f := dest_row0_nonneg hy hf
    have hr0par : dest_row0 (composite_resolved_y g 4) f % 2 = 1 - f :=
      dest_row0_parity hy hf
    set x1 := clampNonneg (composite_resolved_x g wd) with hx1def
    set r0 := dest_row0 (composite_resolved_y g 4) f with hr0def
    have hcolpos : 0 < (L.cols : ℤ) := by
      by_contra hcp
      push_neg at hcp
      have : L.dOff + (k : ℤ) * L.dStep + 2 * (L.cols : ℤ) ≤ L.dOff + (k : ℤ) * L.dStep := by
        linarith
      linarith
    have hxc := hcols hcolpos
    have hkle := hrows k hk
    have hbase : L.dOff + (k : ℤ) * L.dStep = 2 * x1 + (2 * wd) * (r0 + 2 * (k : ℤ)) := by
      rw [hoff, hstep]
      ring
    have h1 : 2 * x1 + (2 * wd) * (r0 + 2 * (k : ℤ)) ≤ o := by rw [← hbase]; exact hc1
    have h2 : o < 2 * x1 + (2 * wd) * (r0 + 2 * (k : ℤ)) + 2 * (L.cols : ℤ) := by
      rw [← hbase]
      exact hc2
    have hknn : (0 : ℤ) ≤ (k : ℤ) := Int.ofNat_nonneg k
    have hqnn : 0 ≤ r0 + 2 * (k : ℤ) := by omega
    have hs0 : 0 ≤ o - (2 * wd) * (r0 + 2 * (k : ℤ)) := by linarith
    have hs1 : o - (2 * wd) * (r0 + 2 * (k : ℤ)) < 2 * wd := by linarith
    have hdiv : o / (2 * wd) = r0 + 2 * (k : ℤ) := by
      rw [show o = (o - (2 * wd) * (r0 + 2 * (k : ℤ))) + (2 * wd) * (r0 + 2 * (k : ℤ))
          by ring,
        Int.add_mul_ediv_left _ _ (show 2 * wd ≠ 0 by omega),
        Int.ediv_eq_zero_of_lt hs0 hs1, zero_add]
    have hopos : 0 ≤ o := by
      have : (0 : ℤ) ≤ (2 * wd) * (r0 + 2 * (k : ℤ)) := mul_nonneg (by omega) hqnn
      linarith
    have holt : o < 4 * (2 * wd) := by
      have : (2 * wd) * (r0 + 2 * (k : ℤ)) ≤ (2 * wd) * 3 :=
        mul_le_mul_of_nonneg_left hkle (by omega)
      linarith
    rcases ho with h | h | h
    · omega
    · omega
    · rw [hdiv] at h
      omega

/-- C2 witness: the amended statement at a concrete field-0 pass (resolved
y = 0), showing destination byte 0 (row 0, an even row) is unchanged. -/
theorem c2_field_parity_amended_witness :
    composite_yuv (bufConst 7) 2 4 (bufConst 9) 2 4 none c2wgeom 0 0 = bufConst 7 0 :=
  c2_field_parity_amended (bufConst 7) (bufConst 9) 2 2 4 none c2wgeom 0 (Or.inl rfl)
    (by decide) (by decide) 0 (Or.inr (Or.inr (by decide)))

end Composite
